import Mathlib

/-!
Shallow embedding of the CLI orchestration layer of a static-analysis tool
(`src/cli/cli.js`): comment-stripped JSON configuration loading, upward
configuration-file search, ignore-pattern matching, recursive file
collection, per-file linting and the overall run outcome.

Conventions of the embedding:
* JavaScript strings are Lean `String`s; helpers operate on `List Char`
  so that every definition is structurally recursive and computable.
* The filesystem is passed explicitly: an existence predicate, a read
  function returning `Option String` (`none` models a failed
  `shjs.cat`), or an explicit tree for directory traversal.
* JSON values are the inductive `JVal`; a JavaScript object is an
  association list with unique keys (`JObj`).
* `null`/`undefined` arguments are modelled with `Option`.
-/

set_option autoImplicit false

/-- A JSON value, the data produced by parsing a configuration file.
Objects are association lists; JavaScript object keys are unique. -/
inductive JVal where
  | bool : Bool → JVal
  | str : String → JVal
  | num : Int → JVal
  | obj : List (String × JVal) → JVal

/-- A JavaScript object: an association list of fields. -/
abbrev JObj := List (String × JVal)

/-- JavaScript truthiness of a `JVal`: `false`, `0` and `""` are falsy,
every object is truthy.  A missing property (`undefined`) is handled by
callers via `Option`. -/
def jsTruthy : JVal → Bool
  | JVal.bool b => b
  | JVal.str s => !(s == "")
  | JVal.num n => !(n == 0)
  | JVal.obj _ => true

/-- Property read `o[k]`: first field with the given key. -/
def lookupKey (o : JObj) (k : String) : Option JVal :=
  match o with
  | [] => none
  | (k2, v) :: rest => if k2 == k then some v else lookupKey rest k

/-- Property deletion `delete o[k]` (object keys are unique, so removing
every field with the key models the JavaScript delete). -/
def eraseKey (o : JObj) (k : String) : JObj :=
  match o with
  | [] => []
  | (k2, v) :: rest =>
    if k2 == k then eraseKey rest k else (k2, v) :: eraseKey rest k

/-- Property write `o[k] = v`: overwrite an existing field, else append. -/
def setKey (o : JObj) (k : String) (v : JVal) : JObj :=
  match o with
  | [] => [(k, v)]
  | (k2, w) :: rest =>
    if k2 == k then (k2, v) :: rest else (k2, w) :: setKey rest k v

/-- Does the character list contain the two-character sequence of a
block-comment terminator (star slash)?  Used to decide whether the
block-comment regex can match at a given opening. -/
def hasClose : List Char → Bool
  | '*' :: '/' :: _ => true
  | _ :: rest => hasClose rest
  | [] => false

/-- One pass of `str.replace(/\/\*(?:(?!\*\/)[\s\S])*\*\//g, "")` from
`removeComments` (cli.js:64): the flag records whether we are inside a
block comment.  The regex only matches an opening that is eventually
closed, so an opening with no closing sequence anywhere after it is kept
verbatim (and nothing later can match, as any match needs a closer). -/
def blockAux : Bool → List Char → List Char
  | _, [] => []
  | false, '/' :: '*' :: rest =>
    if hasClose rest then blockAux true rest else '/' :: '*' :: rest
  | false, c :: rest => c :: blockAux false rest
  | true, '*' :: '/' :: rest => blockAux false rest
  | true, _ :: rest => blockAux true rest

/-- One pass of `str.replace(/\/\/[^\n\r]*/g, "")` from
`removeComments` (cli.js:65): drop everything from a double slash to the
end of the line, keeping the line terminator itself. -/
def lineAux : Bool → List Char → List Char
  | _, [] => []
  | false, '/' :: '/' :: rest => lineAux true rest
  | false, c :: rest => c :: lineAux false rest
  | true, c :: rest =>
    if c == '\n' || c == '\r' then c :: lineAux false rest
    else lineAux true rest

/-- `removeComments` (cli.js:61-68).  The argument is `Option String`
because the JavaScript function accepts `null`/`undefined` and coerces
them to the empty string via `str = str || ""`; block comments are
stripped first, then line comments. -/
def removeComments (str : Option String) : String :=
  let s := match str with
    | none => ""
    | some s => s
  String.mk (lineAux false (blockAux false s.toList))

/-- `loadConfig` (cli.js:76-82).  `projParse` models the external
`JSON.parse` (success or a parse error); `fsRead` models
`shjs.test("-e", fp)` followed by `shjs.cat(fp)`: `some content` exactly
when the file exists.  A falsy path (`null`/`undefined`, modelled `none`,
or the empty string) or a missing file yields the empty configuration;
otherwise the comment-stripped content is handed to the parser, whose
error (if any) propagates. -/
def loadConfig (projParse : String → Except String JVal)
    (fsRead : String → Option String) (fp : Option String) :
    Except String JVal :=
  match fp with
  | none => Except.ok (JVal.obj [])
  | some p =>
    if p == "" then Except.ok (JVal.obj [])
    else
      match fsRead p with
      | none => Except.ok (JVal.obj [])
      | some content => projParse (removeComments (some content))

/-- Concrete parser used by witnesses: fails on one designated text. -/
def parseW (s : String) : Except String JVal :=
  if s == "bad" then Except.error ("Unexpected token") else Except.ok (JVal.obj [])

/-- Concrete one-file filesystem used by witnesses of `loadConfig`. -/
def fsReadW (p : String) : Option String :=
  if p == "conf" then some ("bad") else none

/-- Split a character list on a separator character. -/
def splitOnChar (sep : Char) : List Char → List Char → List String
  | [], acc => [String.mk acc.reverse]
  | c :: rest, acc =>
    if c == sep then String.mk acc.reverse :: splitOnChar sep rest []
    else splitOnChar sep rest (c :: acc)

/-- Non-empty components of a POSIX path string. -/
def pathComponents (s : String) : List String :=
  (splitOnChar '/' s.toList []).filter (fun c => !(c == ""))

/-- Resolve `.` and `..` components against an absolute component list,
clamping `..` at the root exactly as Node's `path` module does. -/
def normComponents (cs : List String) : List String :=
  cs.foldl
    (fun acc c =>
      if c == "." then acc
      else if c == ".." then acc.dropLast
      else acc ++ [c])
    []

/-- Render an absolute path from its components. -/
def renderPath (cs : List String) : String :=
  match cs with
  | [] => "/"
  | c :: rest => (rest.foldl (fun acc d => acc ++ "/" ++ d) ("/" ++ c))

/-- Model of `path.resolve(fp)`: resolve `fp` against the current working
directory (given as components of an absolute path) and normalize. -/
def resolvePath (cwd : List String) (fp : String) : String :=
  if fp.toList.head? == some '/' then
    renderPath (normComponents (pathComponents fp))
  else
    renderPath (normComponents (cwd ++ pathComponents fp))

/-- Model of `path.join(fp, item)` for a normalized directory path and a
plain child name, as produced by the directory traversal. -/
def pathJoin (fp item : String) : String := fp ++ "/" ++ item

/-- The test `ip.match(/^[^\/]*\/?$/)` from `isIgnored` (cli.js:190): the
pattern contains no slash apart from, at most, a single trailing one. -/
def sepFreePat (ip : String) : Bool :=
  match ip.toList.reverse with
  | '/' :: rest => !rest.contains '/'
  | l => !l.contains '/'

/-- Model of the external `minimatch(fp, ip, { nocase: true })` for
patterns free of glob metacharacters, where (per the minimatch contract)
matching degenerates to case-insensitive literal comparison.  Concrete
counterexamples and witnesses only ever apply it to such patterns. -/
def minimatchLit (fp ip : String) : Bool :=
  fp.toList.map Char.toLower == ip.toList.map Char.toLower

/-- The Boolean outcome of `fp.match(new RegExp("^" + ip + ".*"))` for
patterns free of regular-expression metacharacters, where the
interpolated regex `^ip.*` matches exactly the strings having `ip` as a
plain prefix.  Concrete counterexamples and witnesses only ever apply it
to such patterns. -/
def regexLitTest (fp ip : String) : Bool :=
  ip.toList.isPrefixOf fp.toList

/-- Ambient state consulted by `isIgnored`: the working directory used by
`path.resolve`, the `shjs.test("-d", ·)` directory oracle, the external
`minimatch` library invoked with `{ nocase: true }`, and the JavaScript
regular-expression engine behind clause (c)'s
`fp.match(new RegExp("^" + ip + ".*"))` — `regexTest fp ip` is that
match's Boolean outcome.  The pattern is interpolated into regex syntax,
so its metacharacters are significant (for example pattern `fo.` matches
the directory `fox`); like `minimatch` and `JSON.parse`, the engine is a
JavaScript builtin and is kept abstract.  An environment models a run in
which every regex consulted compiles: for a pattern whose interpolation
is not a valid regex (such as a lone `*`), `new RegExp` throws and the
original program aborts out of `isIgnored` instead of returning, an
error path outside this Boolean model. -/
structure IgnoreEnv where
  cwd : List String
  isDir : String → Bool
  minimatch : String → String → Bool
  regexTest : String → String → Bool

/-- `isIgnored` (cli.js:180-195).  A path is ignored when some pattern
(a) glob-matches it case-insensitively, (b) equals its resolved absolute
form, or (c) the path is a directory, the pattern has no separator (or
exactly one trailing one), and the **raw path argument** matches the
regular expression obtained by anchoring the pattern at the start
(`new RegExp("^" + ip + ".*")` tested against `fp` as given, not against
its absolute form). -/
def isIgnored (env : IgnoreEnv) (fp : String) (patterns : List String) :
    Bool :=
  patterns.any fun ip =>
    env.minimatch fp ip
    || (resolvePath env.cwd fp == ip)
    || (env.isDir fp && sepFreePat ip && env.regexTest fp ip)

/-- Restatement of claim C2's clause (c) in the spec's own words, for
comparison with `isIgnored`: the path's **absolute resolved form** must
start with the pattern (the claim's "directory-name prefix" reading),
where the code instead applies its regex test to the raw path
argument. -/
def isIgnoredSpec (env : IgnoreEnv) (fp : String) (patterns : List String) :
    Bool :=
  patterns.any fun ip =>
    env.minimatch fp ip
    || (resolvePath env.cwd fp == ip)
    || (env.isDir fp && sepFreePat ip
        && ip.toList.isPrefixOf (resolvePath env.cwd fp).toList)

/-- Concrete environment for the `isIgnored` counterexample: working
directory `/cwd`, where `foo` names a directory.  The pattern involved,
`fo`, is free of glob and regex metacharacters, so `minimatchLit` and
`regexLitTest` are the exact behaviours of the two external engines on
the inputs exercised. -/
def envC : IgnoreEnv :=
  ⟨["cwd"], fun fp => fp == "foo", minimatchLit, regexLitTest⟩

/-- A filesystem subtree, as observed by `shjs.test("-d", ·)` and
`shjs.ls`: a node is either a plain file or a directory with its
immediate children in directory-listing order. -/
inductive FSNode where
  | file : FSNode
  | dir : List (String × FSNode) → FSNode

mutual

/-- `collect` (cli.js:206-222) together with the `shjs.ls(fp).forEach`
loop of its directory branch.  The traversal carries the path `fp` and
the subtree rooted there; `ignores` is `none` when `loadIgnores` found no
ignore file (the `ignores &&` guard), `ext` is the compiled extension
regular expression as a predicate, and the accumulated `files` array is
threaded explicitly. -/
def collect (env : IgnoreEnv) (ignores : Option (List String))
    (ext : String → Bool) (fp : String) (node : FSNode)
    (files : List String) : List String :=
  if (match ignores with
      | some patterns => isIgnored env fp patterns
      | none => false) then
    files
  else
    match node with
    | FSNode.dir children => collectDir env ignores ext fp children files
    | FSNode.file => if ext fp then files ++ [fp] else files

/-- The `forEach` loop over a directory's children inside `collect`. -/
def collectDir (env : IgnoreEnv) (ignores : Option (List String))
    (ext : String → Bool) (fp : String)
    (children : List (String × FSNode)) (files : List String) :
    List String :=
  match children with
  | [] => files
  | (item, child) :: rest =>
    collectDir env ignores ext fp rest
      (collect env ignores ext (pathJoin fp item) child files)

end

/-- The expression `path.resolve(dir, "../../")` from `findFile`
(cli.js:137) on an absolute directory given as components: it removes the
last **two** components — the grandparent, not the immediate parent —
clamping at the filesystem root. -/
def parentDir (dir : List String) : List String :=
  dir.dropLast.dropLast

/-- `findFile` (cli.js:133-148).  Directories are absolute normalized
paths given as component lists (the root is `[]`); `fsExists` models
`shjs.test("-e", ·)` on a full path.  At each level the candidate
`path.join(dir, name)` is checked; the search stops when the computed
`parent` equals the current directory, else it recurses on `parent`. -/
def findFile (fsExists : List String → Bool) (name : String)
    (dir : List String) : Option (List String) :=
  let filename := dir ++ [name]
  let parent := parentDir dir
  if fsExists filename then some filename
  else if dir = parent then none
  else findFile fsExists name parent
termination_by dir.length
decreasing_by
  have hne : dir ≠ parentDir dir := by assumption
  have h0 : dir ≠ [] := by
    intro hnil
    exact hne (by simp [hnil, parentDir])
  have h1 : 0 < dir.length := List.length_pos.mpr h0
  simp only [parentDir, List.length_dropLast]
  omega

/-- `findConfig` (cli.js:91-105): prefer the project search from the
working directory; fall back to `$HOME/.jshintrc`; else `null`.  `home`
is the home directory as components. -/
def findConfig (fsExists : List String → Bool) (cwd home : List String) :
    Option (List String) :=
  let name := ".jshintrc"
  match findFile fsExists name cwd with
  | some proj => some proj
  | none =>
    if fsExists (home ++ [name]) then some (home ++ [name]) else none

/-- Concrete filesystem for the `findFile` failing input: exactly one
file, `/a/b/.jshintrc` — in the immediate parent of the starting
directory `/a/b/c`. -/
def fsC1 (p : List String) : Bool :=
  p == [("a"), ("b"), (".jshintrc")]

/-- Strip a single leading byte-order mark, U+FEFF (cli.js:248). -/
def stripBOM (s : String) : String :=
  match s.toList with
  | '﻿' :: rest => String.mk rest
  | _ => s

/-- The external analysis engine (`JSHINT`), modelled as deterministic
functions of one invocation's inputs: the boolean outcome, the error
list read from `JSHINT.errors` after the call (a `none` entry models a
`null` slot), and the auxiliary data read from `JSHINT.data()` (`none`
models `undefined`). -/
structure Engine where
  check : String → JObj → Option JVal → Bool
  errors : String → JObj → Option JVal → List (Option JVal)
  auxData : String → JObj → Option JVal → Option JObj

/-- A fatal termination: `cli.error(msg)` followed by
`process.exit(code)`. -/
inductive Fatal where
  | exit : Nat → String → Fatal

/-- One entry pushed onto `results`: `{ file: file, error: err }`. -/
structure Finding where
  file : String
  error : JVal

/-- `lint` (cli.js:232-269).  `readF` models `shjs.cat` (`none` = the
read throws); on failure the run terminates with exit status 1 and a
message naming the file.  Otherwise the BOM is stripped, a truthy
`globals` value is extracted from the (deep-copied) configuration and
its key deleted, the engine runs, each non-null reported error is
appended in order tagged with the file, and any auxiliary data is tagged
with the file and appended regardless of pass/fail. -/
def lint (eng : Engine) (readF : String → Option String) (file : String)
    (results : List Finding) (config : JObj) (data : List JObj) :
    Except Fatal (List Finding × List JObj) :=
  match readF file with
  | none => Except.error (Fatal.exit 1 ("Can\x27t open " ++ file))
  | some buffer0 =>
    let buffer := stripBOM buffer0
    let globals : Option JVal :=
      match lookupKey config ("globals") with
      | some g => if jsTruthy g then some g else none
      | none => none
    let config2 : JObj :=
      match lookupKey config ("globals") with
      | some g => if jsTruthy g then eraseKey config ("globals") else config
      | none => config
    let results2 :=
      if eng.check buffer config2 globals then results
      else
        results ++ (eng.errors buffer config2 globals).filterMap
          (fun e => e.map (fun err => ⟨file, err⟩))
    let data2 :=
      match eng.auxData buffer config2 globals with
      | some d => data ++ [setKey d ("file") (JVal.str file)]
      | none => data
    Except.ok (results2, data2)

/-- The `files.forEach(lint)` loop of `run` (cli.js:297-299): process
files in order, stopping at the first fatal exit. -/
def lintAll (eng : Engine) (readF : String → Option String)
    (config : JObj) :
    List String → List Finding → List JObj →
      Except Fatal (List Finding × List JObj)
  | [], results, data => Except.ok (results, data)
  | f :: rest, results, data =>
    match lint eng readF f results config data with
    | Except.error e => Except.error e
    | Except.ok (results2, data2) =>
      lintAll eng readF config rest results2 data2

/-- The alternatives of the extension regular expression built by `run`
(cli.js:289-291): always `js`; when the `extra-ext` string is non-empty,
additionally each comma-separated entry with dots and spaces removed. -/
def extAlternatives (extensions : String) : List String :=
  if extensions == "" then [("js")]
  else
    ("js") :: (splitOnChar ',' extensions.toList []).map
      (fun e => String.mk (e.toList.filter (fun c => !(c == '.' || c == ' '))))

/-- `fp.match(reg)` for the regular expression `\.(a|b|...)$`: the file
name ends with a dot followed by one of the alternatives. -/
def extMatch (extensions : String) (fp : String) : Bool :=
  (extAlternatives extensions).any
    (fun e => (("." ++ e).toList).isSuffixOf fp.toList)

/-- The post-processed options handed to `run` (cli.js:285): each target
path is paired with the filesystem subtree rooted at it; `ignores` is
`none` when `loadIgnores` found no ignore file; `extensions` is the raw
`extra-ext` string. -/
structure Opts where
  args : List (String × FSNode)
  config : JObj
  ignores : Option (List String)
  extensions : String

/-- The file list built by the first loop of `run` (cli.js:293-295). -/
def collectedFiles (env : IgnoreEnv) (opts : Opts) : List String :=
  opts.args.foldl
    (fun acc t =>
      collect env opts.ignores (extMatch opts.extensions) t.1 t.2 acc)
    []

/-- What `run` (cli.js:285-304) delivers on normal completion: the
reporter is invoked exactly once, after all files, with the full
findings and data lists, and the returned boolean is
`results.length === 0`.  A fatal `process.exit` inside `lint` yields
`Except.error` instead — then no reporter invocation ever happens. -/
structure RunReport where
  passed : Bool
  reporterResults : List Finding
  reporterData : List JObj

/-- `run` (cli.js:285-304). -/
def runCli (eng : Engine) (readF : String → Option String)
    (env : IgnoreEnv) (opts : Opts) : Except Fatal RunReport :=
  match lintAll eng readF opts.config (collectedFiles env opts) [] [] with
  | Except.error e => Except.error e
  | Except.ok (results, data) =>
    Except.ok ⟨results.length == 0, results, data⟩

/-- Dereference a heap address; a dangling address reads as the empty
object (never exercised: callers hold valid addresses). -/
def heapGet : List JObj → Nat → JObj
  | [], _ => []
  | o :: _, 0 => o
  | _ :: rest, n + 1 => heapGet rest n

/-- Result of the configuration-handling steps of `lint` (cli.js:237-253)
under explicit object identity: the heap of live objects after the call,
the heap address of the configuration object handed to the engine, and
the extracted `globals` argument. -/
structure ConfigStep where
  heap : List JObj
  engineCfg : Nat
  engineGlobals : Option JVal

/-- The configuration handling of `lint` with an explicit heap, making
aliasing observable: `config = JSON.parse(JSON.stringify(config))`
allocates a fresh structurally-equal copy at a new address, and
`delete config.globals` — executed only when `config.globals` is
truthy — mutates that copy alone; the caller's object is never written. -/
def lintConfigStep (h : List JObj) (cfgAddr : Nat) : ConfigStep :=
  let cfg := heapGet h cfgAddr
  let copyAddr := h.length
  let h2 := h ++ [cfg]
  match lookupKey cfg ("globals") with
  | some g =>
    if jsTruthy g then
      ⟨h2.set copyAddr (eraseKey cfg ("globals")), copyAddr, some g⟩
    else ⟨h2, copyAddr, none⟩
  | none => ⟨h2, copyAddr, none⟩

/-- Configuration for the C3 counterexample: the `globals` key is
present but its value is falsy. -/
def cfgFalsy : JObj :=
  [(("globals"), JVal.bool false), (("undef"), JVal.bool true)]

/-- Globals value for the C3 witness. -/
def gW : JVal := JVal.obj [(("x"), JVal.bool true)]

/-- Heap for the C3 witness: one configuration object. -/
def hW : List JObj := [[(("globals"), gW), (("undef"), JVal.bool true)]]

/-- Trivial engine for run witnesses: always passes, no errors, no
auxiliary data. -/
def engW : Engine := ⟨fun _ _ _ => true, fun _ _ _ => [], fun _ _ _ => none⟩

/-- Filesystem on which every read fails, for the C7 witness. -/
def readFnone : String → Option String := fun _ => none

/-- Options naming one plain-file target, for the C7 witness. -/
def optsW7 : Opts := ⟨[(("f.js"), FSNode.file)], [], none, ""⟩

/-- Options with no targets, for the C9 witness. -/
def optsW9 : Opts := ⟨[], [], none, ""⟩

/-- An ignore environment that never matches anything. -/
def envNone : IgnoreEnv :=
  ⟨[], fun _ => false, fun _ _ => false, fun _ _ => false⟩

/-- C8: block then line comment stripping on the spec's example. -/
theorem removeComments_example :
    removeComments (some ("/* x */ \x7b\"a\":1\x7d // y")) = " \x7b\"a\":1\x7d "
    ∧ (" \x7b\"a\":1\x7d ").toList.filter (fun c => !c.isWhitespace)
      = ("\x7b\"a\":1\x7d").toList.filter (fun c => !c.isWhitespace)
    ∧ removeComments (some (" \x7b\"a\":1\x7d ")) = " \x7b\"a\":1\x7d " := by
  refine ⟨?_, ?_, ?_⟩ <;> decide

/-- C10: a missing (`null`/`undefined`) argument yields the empty string. -/
theorem removeComments_missing_input : removeComments none = "" := by
  decide

/-- C4: `loadConfig` returns the empty configuration exactly on a falsy or
non-existent path, hands existing content (comment-stripped) to the
parser, and any error it reports is a parse error of an existing file's
stripped content — never silently an empty configuration. -/
theorem loadConfig_cases (projParse : String → Except String JVal)
    (fsRead : String → Option String) :
    loadConfig projParse fsRead none = Except.ok (JVal.obj [])
    ∧ (∀ p, fsRead p = none →
        loadConfig projParse fsRead (some p) = Except.ok (JVal.obj []))
    ∧ (∀ p c, p ≠ "" → fsRead p = some c →
        loadConfig projParse fsRead (some p)
          = projParse (removeComments (some c)))
    ∧ (∀ fp e, loadConfig projParse fsRead fp = Except.error e →
        ∃ p c, fp = some p ∧ fsRead p = some c
          ∧ projParse (removeComments (some c)) = Except.error e) := by
  refine ⟨rfl, ?_, ?_, ?_⟩
  · intro p hp
    simp [loadConfig, hp]
  · intro p c hp hc
    simp [loadConfig, hp, hc]
  · intro fp e herr
    match fp with
    | none => simp [loadConfig] at herr
    | some p =>
      by_cases hp : p = ""
      · simp [loadConfig, hp] at herr
      · cases hread : fsRead p with
        | none => simp [loadConfig, hp, hread] at herr
        | some c =>
          refine ⟨p, c, rfl, hread, ?_⟩
          simpa [loadConfig, hp, hread] using herr

/-- Witness for C4 at a concrete parser and filesystem. -/
theorem loadConfig_cases_witness :
    loadConfig parseW fsReadW (some ("missing")) = Except.ok (JVal.obj [])
    ∧ loadConfig parseW fsReadW (some ("conf"))
      = parseW (removeComments (some ("bad"))) :=
  ⟨(loadConfig_cases parseW fsReadW).2.1 ("missing") rfl,
   (loadConfig_cases parseW fsReadW).2.2.1 ("conf") ("bad") (by decide) rfl⟩

/-- C2 counterexample: with working directory `/cwd`, the directory path
`foo` and pattern list `[fo]`, the code ignores the path — clause (c)
tests the raw path argument `foo` against the regex `^fo.*` (for this
metacharacter-free pattern, a plain prefix test, the behaviour
`regexLitTest` supplies) — while the claim's condition, which requires
the absolute form `/cwd/foo` to start with the pattern, does not hold
(and no other clause fires). -/
theorem isIgnored_claim_counterexample :
    isIgnored envC ("foo") [("fo")] = true
    ∧ isIgnoredSpec envC ("foo") [("fo")] = false := by
  refine ⟨?_, ?_⟩ <;> decide

/-- C2 amended: `isIgnored(p, P)` returns true iff some pattern in P
glob-matches p case-insensitively, or equals p's absolute normalized
form exactly, or p is a directory, the pattern contains no path
separator (or ends with exactly one), and p **as given** — not its
absolute form — matches the regular expression obtained by anchoring the
pattern at the start (for patterns free of regex metacharacters, a plain
string-prefix test on the raw path, with no directory-name boundary).
Patterns whose interpolation is not a valid regex instead make the
program throw out of `isIgnored`, so the characterization concerns runs
in which every consulted regex compiles. -/
theorem isIgnored_iff (env : IgnoreEnv) (fp : String)
    (patterns : List String) :
    isIgnored env fp patterns = true ↔
      ∃ ip ∈ patterns,
        env.minimatch fp ip = true
        ∨ resolvePath env.cwd fp = ip
        ∨ (env.isDir fp = true ∧ sepFreePat ip = true
            ∧ env.regexTest fp ip = true) := by
  simp only [isIgnored, List.any_eq_true, Bool.or_eq_true, Bool.and_eq_true,
    beq_iff_eq]
  constructor
  · rintro ⟨ip, hip, h⟩
    exact ⟨ip, hip, by tauto⟩
  · rintro ⟨ip, hip, h⟩
    exact ⟨ip, hip, by tauto⟩

/-- C1: the upward search misses the immediate parent.  With the single
file `/a/b/.jshintrc` and starting directory `/a/b/c`, `findFile` checks
`/a/b/c`, then jumps to `/a` (the code computes
`path.resolve(dir, "../../")`, two levels up) and then to the root, so it
returns `null` even though the searched file exists one level above the
start. -/
theorem findFile_misses_parent :
    fsC1 ([("a"), ("b")] ++ [(".jshintrc")]) = true
    ∧ findFile fsC1 (".jshintrc") [("a"), ("b"), ("c")] = none := by
  constructor
  · decide
  · rw [findFile]
    norm_num [fsC1, parentDir]
    rw [findFile]
    norm_num [fsC1, parentDir]
    rw [findFile]
    norm_num [fsC1, parentDir]

/-- C6: the search always terminates (witnessed by `findFile` being a
total function, its recursion stopping when the computed parent equals
the current directory), and when no `.jshintrc` exists at any directory
nor in the home directory, `findConfig` returns `null`. -/
theorem findConfig_no_config_none (fsExists : List String → Bool)
    (cwd home : List String)
    (h : ∀ d : List String, fsExists (d ++ [(".jshintrc")]) = false) :
    findConfig fsExists cwd home = none := by
  have hf : ∀ n (dir : List String), dir.length ≤ n →
      findFile fsExists (".jshintrc") dir = none := by
    intro n
    induction n with
    | zero =>
      intro dir hd
      have hnil : dir = [] := List.length_eq_zero.mp (Nat.le_zero.mp hd)
      subst hnil
      rw [findFile]
      simp only [parentDir, List.dropLast_nil, List.nil_append, if_true]
      simpa using h []
    | succ n ih =>
      intro dir _
      rw [findFile]
      simp only [h dir, Bool.false_eq_true, if_false]
      by_cases hdp : dir = parentDir dir
      · rw [if_pos hdp]
      · rw [if_neg hdp]
        apply ih
        have h0 : dir ≠ [] := fun hnil => hdp (by simp [hnil, parentDir])
        have h1 : 0 < dir.length := List.length_pos.mpr h0
        simp only [parentDir, List.length_dropLast]
        omega
  have hcwd : findFile fsExists (".jshintrc") cwd = none :=
    hf cwd.length cwd (le_refl _)
  simp [findConfig, hcwd, h home]

/-- Witness for C6: an empty filesystem, a nested starting directory. -/
theorem findConfig_no_config_none_witness :
    findConfig (fun _ => false) [("a"), ("b"), ("c")] [("h")] = none :=
  findConfig_no_config_none _ _ _ (fun _ => rfl)

/-- C5: a path matching an ignore pattern is pruned whole — `collect`
returns the accumulated file list unchanged and never descends, whatever
subtree lies below the path. -/
theorem collect_ignored_prunes (env : IgnoreEnv) (patterns : List String)
    (ext : String → Bool) (fp : String) (node : FSNode)
    (files : List String)
    (h : isIgnored env fp patterns = true) :
    collect env (some patterns) ext fp node files = files := by
  rw [collect.eq_def]
  simp [h]

/-- Witness for C5: the ignored directory `foo` containing `foo/b.js`
contributes nothing. -/
theorem collect_ignored_prunes_witness :
    collect envC (some [("foo")]) (fun _ => true) ("foo")
      (FSNode.dir [(("b.js"), FSNode.file)]) [] = [] :=
  collect_ignored_prunes envC _ _ _ _ _ (by decide)

theorem setAppendLen {α : Type} (l : List α) (x v : α) :
    (l ++ [x]).set l.length v = l ++ [v] := by
  induction l with
  | nil => rfl
  | cons a t ih => simp [List.set, ih]

theorem heapGet_append_lt (l l2 : List JObj) (i : Nat) (h : i < l.length) :
    heapGet (l ++ l2) i = heapGet l i := by
  induction l generalizing i with
  | nil => exact absurd h (Nat.not_lt_zero i)
  | cons o rest ih =>
    cases i with
    | zero => rfl
    | succ n => exact ih n (by simpa using h)

theorem heapGet_append_len (l : List JObj) (x : JObj) :
    heapGet (l ++ [x]) l.length = x := by
  induction l with
  | nil => rfl
  | cons o rest ih => simpa using ih

theorem lookupKey_eraseKey (o : JObj) (k : String) :
    lookupKey (eraseKey o k) k = none := by
  induction o with
  | nil => rfl
  | cons kv rest ih =>
    obtain ⟨k2, v⟩ := kv
    by_cases hk : k2 = k
    · simp [eraseKey, hk, ih]
    · simp [eraseKey, lookupKey, hk, ih]

theorem lookupKey_eraseKey_ne (o : JObj) (k k2 : String)
    (h : ¬(k2 = k)) :
    lookupKey (eraseKey o k) k2 = lookupKey o k2 := by
  induction o with
  | nil => rfl
  | cons kv rest ih =>
    obtain ⟨k3, v⟩ := kv
    by_cases hk : k3 = k
    · have hne : ¬(k = k2) := fun hh => h hh.symm
      simp [eraseKey, lookupKey, hk, hne, ih]
    · by_cases hk2 : k3 = k2
      · simp [eraseKey, lookupKey, hk, hk2, h]
      · simp [eraseKey, lookupKey, hk, hk2, ih]

/-- C3 counterexample: a configuration whose `globals` key holds the
falsy value `false`.  The truthiness test `if (config.globals)` skips
the extraction, so the engine-visible configuration still contains the
`globals` key and no separate globals argument is produced — the claim,
quantified over every configuration containing the key, fails here. -/
theorem lintConfig_claim_counterexample :
    lookupKey (heapGet (lintConfigStep [cfgFalsy] 0).heap
        (lintConfigStep [cfgFalsy] 0).engineCfg) ("globals")
      = some (JVal.bool false)
    ∧ (lintConfigStep [cfgFalsy] 0).engineGlobals = none :=
  ⟨rfl, rfl⟩

/-- C3 amended: for every configuration object whose `globals` key holds
a **truthy** value, the engine-visible copy has the key removed, the
value travels as the separate globals argument, the caller's object is
unchanged (same heap address, same fields), every other key is preserved
on the copy, and a second `lint` call reusing the original object again
sees the same configuration including its `globals` key. -/
theorem lintConfig_globals_isolation (h : List JObj) (addr : Nat)
    (g : JVal) (haddr : addr < h.length)
    (hg : lookupKey (heapGet h addr) ("globals") = some g)
    (ht : jsTruthy g = true) :
    lookupKey (heapGet (lintConfigStep h addr).heap
        (lintConfigStep h addr).engineCfg) ("globals") = none
    ∧ (lintConfigStep h addr).engineGlobals = some g
    ∧ heapGet (lintConfigStep h addr).heap addr = heapGet h addr
    ∧ (∀ k, ¬(k = "globals") →
        lookupKey (heapGet (lintConfigStep h addr).heap
            (lintConfigStep h addr).engineCfg) k
          = lookupKey (heapGet h addr) k)
    ∧ (lintConfigStep (lintConfigStep h addr).heap addr).engineGlobals
        = some g := by
  have hstep : lintConfigStep h addr =
      ⟨h ++ [eraseKey (heapGet h addr) ("globals")], h.length, some g⟩ := by
    simp only [lintConfigStep]
    rw [hg]
    simp [ht, setAppendLen]
  rw [hstep]
  refine ⟨?_, rfl, ?_, ?_, ?_⟩
  · rw [heapGet_append_len]
    exact lookupKey_eraseKey _ _
  · exact heapGet_append_lt h _ addr haddr
  · intro k hk
    rw [heapGet_append_len]
    exact lookupKey_eraseKey_ne _ _ _ hk
  · simp only [lintConfigStep, heapGet_append_lt h _ addr haddr]
    rw [hg]
    simp [ht]

/-- Witness for C3 at a concrete heap and truthy globals object. -/
theorem lintConfig_globals_isolation_witness :
    lookupKey (heapGet (lintConfigStep hW 0).heap
        (lintConfigStep hW 0).engineCfg) ("globals") = none
    ∧ (lintConfigStep hW 0).engineGlobals = some gW :=
  ⟨(lintConfig_globals_isolation hW 0 gW (by decide) rfl rfl).1,
   (lintConfig_globals_isolation hW 0 gW (by decide) rfl rfl).2.1⟩

theorem lint_read_error (eng : Engine) (readF : String → Option String)
    (file : String) (results : List Finding) (config : JObj)
    (data : List JObj) (h : readF file = none) :
    lint eng readF file results config data
      = Except.error (Fatal.exit 1 ("Can\x27t open " ++ file)) := by
  simp [lint, h]

theorem lintAll_first_unreadable (eng : Engine)
    (readF : String → Option String) (config : JObj) :
    ∀ (pre : List String) (f : String) (post : List String)
      (results : List Finding) (data : List JObj),
      (∀ f2 ∈ pre, readF f2 ≠ none) → readF f = none →
      lintAll eng readF config (pre ++ f :: post) results data
        = Except.error (Fatal.exit 1 ("Can\x27t open " ++ f)) := by
  intro pre
  induction pre with
  | nil =>
    intro f post results data _ hf
    simp only [List.nil_append, lintAll]
    rw [lint_read_error eng readF f results config data hf]
  | cons f0 rest ih =>
    intro f post results data hpre hf
    have h0 : readF f0 ≠ none := hpre f0 (by simp)
    cases hb : readF f0 with
    | none => exact absurd hb h0
    | some b =>
      simp only [List.cons_append, lintAll]
      cases hlint : lint eng readF f0 results config data with
      | error e =>
        exfalso
        simp [lint, hb] at hlint
      | ok rd =>
        obtain ⟨r2, d2⟩ := rd
        exact ih f post r2 d2
          (fun f2 hf2 => hpre f2 (by simp [hf2])) hf

/-- C7: a file whose read fails makes `lint` terminate the whole run
with exit status 1 and a message naming that file; at the run level, if
the collected file list reaches such a file (every file before it being
readable), the run ends with that same fatal exit — so the reporter,
which only ever runs on a normal completion, is never invoked and no
findings list is produced. -/
theorem lint_unreadable_aborts :
    (∀ (eng : Engine) (readF : String → Option String) (file : String)
        (results : List Finding) (config : JObj) (data : List JObj),
        readF file = none →
        lint eng readF file results config data
          = Except.error (Fatal.exit 1 ("Can\x27t open " ++ file)))
    ∧ (∀ (eng : Engine) (readF : String → Option String)
        (env : IgnoreEnv) (opts : Opts) (pre : List String) (f : String)
        (post : List String),
        collectedFiles env opts = pre ++ f :: post →
        (∀ f2 ∈ pre, readF f2 ≠ none) → readF f = none →
        runCli eng readF env opts
          = Except.error (Fatal.exit 1 ("Can\x27t open " ++ f))) := by
  constructor
  · intro eng readF file results config data h
    exact lint_read_error eng readF file results config data h
  · intro eng readF env opts pre f post hsplit hpre hf
    simp only [runCli, hsplit]
    rw [lintAll_first_unreadable eng readF opts.config pre f post [] []
      hpre hf]

/-- Witness for C7: one plain-file target on a filesystem where every
read fails. -/
theorem lint_unreadable_aborts_witness :
    lint engW readFnone ("f.js") [] [] []
      = Except.error (Fatal.exit 1 ("Can\x27t open " ++ "f.js"))
    ∧ runCli engW readFnone envNone optsW7
      = Except.error (Fatal.exit 1 ("Can\x27t open " ++ "f.js")) :=
  ⟨lint_unreadable_aborts.1 engW readFnone ("f.js") [] [] [] rfl,
   lint_unreadable_aborts.2 engW readFnone envNone optsW7 [] ("f.js") []
     (by
       show collectedFiles envNone optsW7 = [("f.js")]
       simp only [collectedFiles, optsW7, List.foldl]
       rw [collect.eq_def]
       norm_num [envNone, extMatch, extAlternatives])
     (by simp) rfl⟩

/-- C9: `run` returns `true` iff the findings accumulated over all
collected files are empty — auxiliary data contributes nothing to the
outcome. -/
theorem run_passed_iff (eng : Engine) (readF : String → Option String)
    (env : IgnoreEnv) (opts : Opts) (r : RunReport)
    (h : runCli eng readF env opts = Except.ok r) :
    r.passed = true ↔ r.reporterResults = [] := by
  unfold runCli at h
  cases hall : lintAll eng readF opts.config (collectedFiles env opts) [] [] with
  | error e =>
    rw [hall] at h
    exact absurd h (by simp)
  | ok rd =>
    obtain ⟨results, data⟩ := rd
    rw [hall] at h
    injection h with h2
    subst h2
    simp [List.length_eq_zero]

/-- Witness for C9: the empty run passes with an empty findings list. -/
theorem run_passed_iff_witness :
    ((⟨true, [], []⟩ : RunReport).passed = true
      ↔ (⟨true, [], []⟩ : RunReport).reporterResults = []) :=
  run_passed_iff engW readFnone envNone optsW9 ⟨true, [], []⟩ rfl
